import Mathlib

/-!
Shallow embedding of the PayPal CSV statement parser
(`ofxstatement/plugins/paypal.py`) and proofs about it.

The embedding works at the level of CSV rows already split into fields
(`List String`): the file reading, encoding and CSV quoting layers are
external collaborators.  Python exceptions are modelled with `Except PError`;
machine floats produced by `locale.atof` are modelled with exact rationals;
the process-wide `LC_NUMERIC` locale is modelled by explicit state passing.
-/

namespace PayPal

/-- Errors of the parser, following the spec's taxonomy.  Python raises
`IndexError` for out-of-range row access and `ValueError` for the rest;
the spec names the `ValueError`s `SchemaMismatch`, `DateParseError`,
`NumberParseError` and `InvalidBooleanLiteral`. -/
inductive PError where
  | indexError : PError
  | schemaMismatch : List String → List String → PError
  | dateParseError : String → PError
  | numberParseError : String → PError
  | invalidBooleanLiteral : String → PError
  | localeError : String → PError
deriving DecidableEq, Repr

/-- A raw CSV row: an ordered sequence of string fields. -/
abbrev Row := List String

/-- Python `row[i]`: raises `IndexError` when `i` is out of range
(the code indexes rows without bounds checks). -/
def getField (r : Row) (i : Nat) : Except PError String :=
  match r.get? i with
  | some s => Except.ok s
  | none => Except.error PError.indexError

/-- ASCII model of Python `str.lower` (all strings in play are ASCII). -/
def lowerChar (c : Char) : Char :=
  if 65 ≤ c.toNat ∧ c.toNat ≤ 90 then Char.ofNat (c.toNat + 32) else c

/-- `s.lower()` on ASCII strings. -/
def lowerStr (s : String) : String :=
  String.mk (s.data.map lowerChar)

/-- Whitespace stripped by Python `str.strip()` (ASCII whitespace). -/
def isSpaceChar (c : Char) : Bool :=
  c == ' ' || c == '\t' || c == '\n' || c == '\r'

/-- Python `str.strip()`: trim surrounding whitespace. -/
def stripStr (s : String) : String :=
  String.mk (((s.data.dropWhile isSpaceChar).reverse.dropWhile isSpaceChar).reverse)

/-- Python `s.replace(" ", "")`: remove every space character. -/
def removeSpaces (s : String) : String :=
  String.mk (s.data.filter (fun c => c ≠ ' '))

/-- `pat` is a prefix of `l` (character lists). -/
def listStartsWith : List Char → List Char → Bool
  | [], _ => true
  | _ :: _, [] => false
  | a :: asl, b :: bs => a == b && listStartsWith asl bs

/-- `pat` occurs as a contiguous sublist of `l`. -/
def listHasSub (pat : List Char) : List Char → Bool
  | [] => listStartsWith pat []
  | c :: cs => listStartsWith pat (c :: cs) || listHasSub pat cs

/-- Python `pat in s` substring test. -/
def containsSubstr (s pat : String) : Bool :=
  listHasSub pat.data s.data

/-- The digits of a numeral, most significant first, read as a `Nat`. -/
def digitsToNat (cs : List Char) : Nat :=
  cs.foldl (fun a c => 10 * a + (c.toNat - 48)) 0

def allDigits (cs : List Char) : Bool :=
  cs.all Char.isDigit

/-- Numeric-locale conventions returned by `locale.localeconv()` for
`LC_NUMERIC`: a decimal-point character and an optional thousands
separator (Python uses strings; the separators in play are single
characters, `none` modelling the empty separator of the C locale). -/
structure NumLocale where
  decimalPoint : Char
  thousandsSep : Option Char
deriving DecidableEq, Repr

/-- Python `locale.delocalize`: drop every thousands separator, then turn
the locale's decimal point into `'.'`. -/
def delocalize (loc : NumLocale) (s : String) : String :=
  let cs := match loc.thousandsSep with
    | some t => s.data.filter (fun c => c ≠ t)
    | none => s.data
  String.mk (cs.map (fun c => if c = loc.decimalPoint then '.' else c))

/-- Python `float` on a plain decimal literal (optional sign, digits,
at most one dot, at least one digit), valued exactly in `ℚ`. -/
def parseDecimalCore (cs : List Char) : Option Rat :=
  match cs.span (fun c => c ≠ '.') with
  | (ip, []) =>
    if ip ≠ [] && allDigits ip then some (mkRat (Int.ofNat (digitsToNat ip)) 1)
    else none
  | (ip, _ :: fp) =>
    if (ip ≠ [] || fp ≠ []) && allDigits ip && allDigits fp then
      some (mkRat (Int.ofNat (digitsToNat ip * 10 ^ fp.length + digitsToNat fp))
        (10 ^ fp.length))
    else none

def parseDecimal (s : String) : Option Rat :=
  match s.data with
  | '-' :: rest => (parseDecimalCore rest).map (fun q => -q)
  | '+' :: rest => parseDecimalCore rest
  | cs => parseDecimalCore cs

/-- Value of Python `locale.atof(s)` under numeric-locale conventions
`loc`: delocalize, then parse as a float; a malformed string raises
(`NumberParseError` in the spec's taxonomy). -/
def localeAtof (loc : NumLocale) (s : String) : Except PError Rat :=
  match parseDecimal (delocalize loc s) with
  | some q => Except.ok q
  | none => Except.error (PError.numberParseError s)

/-- The host system's locale database: which locale names `setlocale`
accepts, and the `LC_NUMERIC` conventions each name carries. -/
structure LocaleSystem where
  supported : String → Bool
  conv : String → NumLocale

/-- `scoped_setlocale(category, loc)` from the source: read the original
locale, set `loc` (a `None` argument queries without changing; an
unsupported name raises), run the body under the resulting locale, and
restore the original in a `finally` block on every exit path.  The
process-wide `LC_NUMERIC` state is the explicitly threaded `st : String`
(the current locale name); the body receives the active locale name and
may itself fail or change the state. -/
def scoped_setlocale {α : Type} (sys : LocaleSystem) (loc : Option String)
    (body : String → Except PError α × String) (st : String) :
    Except PError α × String :=
  let orig := st
  match loc with
  | none => ((body st).1, orig)
  | some l =>
    if sys.supported l then ((body l).1, orig)
    else (Except.error (PError.localeError l), orig)

/-- `atof(string, loc)` from the source: locale-aware `atof` run inside
`scoped_setlocale(LC_NUMERIC, loc)`. -/
def atof (sys : LocaleSystem) (loc : Option String) (s : String) (st : String) :
    Except PError Rat × String :=
  scoped_setlocale sys loc (fun cur => (localeAtof (sys.conv cur) s, cur)) st

/-! ### Column schema -/

def DATE : String := "Date"
def TIME : String := "Time"
def TIMEZONE : String := "TimeZone"
def NAME : String := "Name"
def TYPE : String := "Type"
def STATUS : String := "Status"
def CURRENCY : String := "Currency"
def AMOUNT : String := "Amount"
def RECEIPT_ID : String := "Receipt ID"
def BALANCE : String := "Balance"

/-- `PayPalStatementParser.valid_header`: the expected header of a PayPal
CSV export; order is important. -/
def valid_header : List String :=
  [DATE, TIME, TIMEZONE, NAME, TYPE, STATUS, CURRENCY, AMOUNT, RECEIPT_ID, BALANCE]

/-- `self.valid_header.index(...)` for each semantic field. -/
def date_idx : Nat := List.indexOf DATE valid_header

def time_idx : Nat := List.indexOf TIME valid_header

def payee_idx : Nat := List.indexOf NAME valid_header

def type_idx : Nat := List.indexOf TYPE valid_header

def currency_idx : Nat := List.indexOf CURRENCY valid_header

def amount_idx : Nat := List.indexOf AMOUNT valid_header

/-! ### Configuration and output record -/

/-- The parser's configuration.  `numLocale` is the `LC_NUMERIC`
conventions that the configured `locale` setting resolves to on the host
(lemma `atof_value_bridge` below ties this to the stateful `atof`);
`analyze` is carried but its code path in `parse_record` binds locals and
has no observable effect. -/
structure Config where
  currency : String
  numLocale : NumLocale
  analyze : Bool
  merge_payee : Bool

/-- A calendar date as produced by `datetime.strptime` (time-of-day parts
are zero under the `%d/%m/%Y` format and are omitted). -/
structure PDate where
  day : Nat
  month : Nat
  year : Nat
deriving DecidableEq, Repr

/-- `datetime.strptime(s, '%d/%m/%Y')` with the parser's default date
format: day, month and 4-or-fewer-digit-free year as decimal numerals
separated by slashes; out-of-range day/month or junk raises
(`DateParseError` in the spec's taxonomy). -/
def strptimeDMY (s : String) : Except PError PDate :=
  match splitOnSlash s.data with
  | [d, m, y] =>
    if d ≠ [] && m ≠ [] && y ≠ [] && allDigits d && allDigits m && allDigits y then
      if 1 ≤ digitsToNat d && digitsToNat d ≤ 31 && 1 ≤ digitsToNat m &&
          digitsToNat m ≤ 12 && 1 ≤ digitsToNat y then
        Except.ok ⟨digitsToNat d, digitsToNat m, digitsToNat y⟩
      else Except.error (PError.dateParseError s)
    else Except.error (PError.dateParseError s)
  | _ => Except.error (PError.dateParseError s)
where
  splitOnSlash : List Char → List (List Char)
    | [] => [[]]
    | c :: cs =>
      match splitOnSlash cs with
      | [] => if c = '/' then [[], []] else [[c]]
      | g :: gs => if c = '/' then [] :: g :: gs else (c :: g) :: gs

/-- Modelled from the spec: `generate_transaction_id` lives in the external
`ofxstatement.statement` module and is not under `src/`.  The spec calls it
"a deterministic hash/identifier function" over the line's populated
fields (date, memo, amount, payee); it is modelled as a deterministic (and
injective) encoding of exactly those fields. -/
def generate_transaction_id (date : PDate) (memo : String) (amount : Rat)
    (payee : String) : String :=
  toString date.year ++ "-" ++ toString date.month ++ "-" ++ toString date.day ++
    "|" ++ memo ++ "|" ++ toString amount.num ++ "/" ++ toString amount.den ++
    "|" ++ payee

/-- The output record built by `parse_record`. -/
structure StatementLine where
  date : PDate
  memo : String
  amount : Rat
  payee : String
  id : String
deriving DecidableEq, Repr

/-! ### The parser -/

/-- `PayPalStatementParser.validate`: the (stripped) actual header must
equal `valid_header` exactly, else a `SchemaMismatch` error carrying both
the expected and the actual lists. -/
def validate (actual : List String) : Except PError Unit :=
  if valid_header = actual then Except.ok ()
  else Except.error (PError.schemaMismatch valid_header actual)

/-- `PayPalStatementParser.header`: the first CSV row with each field
stripped of surrounding whitespace; `head` of an empty input raises. -/
def headerOf (input : List Row) : Except PError (List String) :=
  match input with
  | [] => Except.error PError.indexError
  | h :: _ => Except.ok (h.map stripStr)

/-- `is_not_currency_conversion`: true when the row's Type field does not
contain the case-insensitive substring "currency conversion". -/
def is_not_currency_conversion (row : Row) : Except PError Bool := do
  let ty ← getField row type_idx
  Except.ok (!(containsSubstr (lowerStr ty) "currency conversion"))

/-- The `merge_payee == False` branch of `PayPalStatementParser.rows`: keep
exactly the rows whose Currency field equals the configured currency. -/
def rowsDefault (cfg : Config) : List Row → Except PError (List Row)
  | [] => Except.ok []
  | r :: rs => do
    let c ← getField r currency_idx
    let rest ← rowsDefault cfg rs
    if c = cfg.currency then Except.ok (r :: rest) else Except.ok rest

/-- The `merge_payee == True` branch of `PayPalStatementParser.rows`:
returns `(this_currency, other_currency)` — target-currency rows for
transformation, and foreign non-conversion rows collected for later
matching (foreign conversion rows are dropped). -/
def rowsMerge (cfg : Config) : List Row → Except PError (List Row × List Row)
  | [] => Except.ok ([], [])
  | r :: rs => do
    let c ← getField r currency_idx
    if c = cfg.currency then do
      let (t, o) ← rowsMerge cfg rs
      Except.ok (r :: t, o)
    else do
      let keep ← is_not_currency_conversion r
      let (t, o) ← rowsMerge cfg rs
      if keep then Except.ok (t, r :: o) else Except.ok (t, o)

/-- `PayPalStatementParser.rows` over the post-header rows, with the
`self.other_currency` side list made explicit (empty in default mode). -/
def rows (cfg : Config) (rs : List Row) : Except PError (List Row × List Row) :=
  if cfg.merge_payee = false then (rowsDefault cfg rs).map (fun t => (t, []))
  else rowsMerge cfg rs

/-- `get_matching_transaction`: scan `other` (insertion order) for the
first row sharing the current row's Date and Time fields; return it with
the list it has been removed from, or `none` with the list intact.
Mirrors Python's short-circuit `and` (Time only read when Dates agree). -/
def get_matching_transaction (other : List Row) (row : Row) :
    Except PError (Option Row × List Row) :=
  match other with
  | [] => Except.ok (none, [])
  | oc :: rest => do
    let od ← getField oc date_idx
    let rd ← getField row date_idx
    if od = rd then do
      let ot ← getField oc time_idx
      let rt ← getField row time_idx
      if ot = rt then Except.ok (some oc, rest)
      else do
        let (m, r2) ← get_matching_transaction rest row
        Except.ok (m, oc :: r2)
    else do
      let (m, r2) ← get_matching_transaction rest row
      Except.ok (m, oc :: r2)

/-- `PayPalStatementParser.parse_record` with the pending-foreign list
threaded explicitly: build the base line (date, memo, amount, payee, id —
the id from `generate_transaction_id` on the line as populated so far),
then, in merge mode on a currency-conversion row, overwrite payee/memo
from a matching pending row when one exists. -/
def parse_record (cfg : Config) (other : List Row) (row : Row) :
    Except PError (StatementLine × List Row) := do
  let ds ← getField row date_idx
  let date ← strptimeDMY ds
  let memo ← getField row type_idx
  let amountStr ← getField row amount_idx
  let amount ← localeAtof cfg.numLocale (removeSpaces amountStr)
  let payee ← getField row payee_idx
  let base : StatementLine :=
    ⟨date, memo, amount, payee, generate_transaction_id date memo amount payee⟩
  if cfg.merge_payee then do
    let notConv ← is_not_currency_conversion row
    if notConv then Except.ok (base, other)
    else do
      let (m, other2) ← get_matching_transaction other row
      match m with
      | some mr => do
        let mn ← getField mr payee_idx
        let mt ← getField mr type_idx
        Except.ok ({ base with payee := mn, memo := mt }, other2)
      | none => Except.ok (base, other2)
  else Except.ok (base, other)

/-- `parse_record` folded over the retained rows (the `split_records`
loop), threading the pending-foreign list. -/
def parse_all (cfg : Config) :
    List Row → List Row → Except PError (List StatementLine × List Row)
  | other, [] => Except.ok ([], other)
  | other, r :: rs => do
    let (l, o2) ← parse_record cfg other r
    let (ls, o3) ← parse_all cfg o2 rs
    Except.ok (l :: ls, o3)

/-- The whole pipeline on a CSV input (header row included): validate the
stripped header, filter/classify the remaining rows, transform each
retained row; leftover unmatched pending rows are discarded. -/
def process (cfg : Config) (input : List Row) : Except PError (List StatementLine) := do
  let hdr ← headerOf input
  validate hdr
  let (t, o) ← rows cfg input.tail
  let (lines, _) ← parse_all cfg o t
  Except.ok lines

/-- `parse_bool` from the source: the literals accepted as booleans in the
plugin settings; anything else raises (`InvalidBooleanLiteral`). -/
def parse_bool (value : String) : Except PError Bool :=
  if value = "True" ∨ value = "true" ∨ value = "1" then Except.ok true
  else if value = "False" ∨ value = "false" ∨ value = "0" then Except.ok false
  else Except.error (PError.invalidBooleanLiteral value)

end PayPal

deriving instance DecidableEq for Except

namespace PayPal

/-! ### Concrete fixtures -/

/-- `LC_NUMERIC` conventions of a dot-decimal locale (the C locale). -/
def dotLocale : NumLocale := ⟨'.', none⟩

/-- `LC_NUMERIC` conventions of a comma-as-decimal, space-as-thousands
locale. -/
def commaLocale : NumLocale := ⟨',', some ' '⟩

/-- A default-mode (merge disabled) configuration targeting USD. -/
def defaultCfg : Config := ⟨"USD", dotLocale, false, false⟩

/-- A merge-mode configuration targeting USD. -/
def mergeCfg : Config := ⟨"USD", dotLocale, false, true⟩

/-- A well-formed PayPal CSV header row. -/
def headerRow : Row :=
  ["Date", "Time", "TimeZone", "Name", "Type", "Status", "Currency", "Amount",
   "Receipt ID", "Balance"]

/-- A foreign-currency (EUR) non-conversion row: the real transaction. -/
def foreignRow : Row :=
  ["01/02/2020", "10:00:00", "PST", "Jane Doe", "Payment", "Completed", "EUR",
   "-10.00", "R1", "100.00"]

/-- A target-currency (USD) currency-conversion row sharing Date and Time
with `foreignRow`. -/
def conversionRow : Row :=
  ["01/02/2020", "10:00:00", "PST", "PayPal", "Currency Conversion",
   "Completed", "USD", "-12.34", "R2", "90.00"]

/-- A target-currency (USD) currency-conversion row at a different time. -/
def lonelyConversionRow : Row :=
  ["03/02/2020", "11:00:00", "PST", "PayPal", "Currency Conversion",
   "Completed", "USD", "-5.00", "R3", "85.00"]

/-- A plain target-currency row. -/
def plainRow : Row :=
  ["01/02/2020", "10:00:00", "PST", "Jane Doe", "Payment", "Completed", "USD",
   "-12.34", "R1", "100.00"]

/-- A 7-field foreign-currency row: long enough for the currency filter
(index 6) but too short for the amount access (index 7). -/
def shortForeignRow : Row :=
  ["01/02/2020", "10:00:00", "PST", "X", "Payment", "Completed", "EUR"]

/-- A 7-field target-currency row: passes the currency filter, fails at
the amount access. -/
def shortTargetRow : Row :=
  ["01/02/2020", "10:00:00", "PST", "X", "Payment", "Completed", "USD"]

/-- The line produced for `conversionRow` after merging with `foreignRow`:
final payee/memo from the foreign row, id from the conversion row's own
Name/Type. -/
def mergedConvLine : StatementLine :=
  ⟨⟨1, 2, 2020⟩, "Payment", mkRat (-1234) 100, "Jane Doe",
    generate_transaction_id ⟨1, 2, 2020⟩ "Currency Conversion" (mkRat (-1234) 100) "PayPal"⟩

/-- The line produced for `plainRow`. -/
def plainLine : StatementLine :=
  ⟨⟨1, 2, 2020⟩, "Payment", mkRat (-1234) 100, "Jane Doe",
    generate_transaction_id ⟨1, 2, 2020⟩ "Payment" (mkRat (-1234) 100) "Jane Doe"⟩

/-! ### Helper lemmas -/

lemma except_bind_ok {α β : Type} {e : Except PError α} {f : α → Except PError β} {b : β}
    (h : (e >>= f) = Except.ok b) : ∃ a, e = Except.ok a ∧ f a = Except.ok b := by
  cases e with
  | ok a => exact ⟨a, rfl, h⟩
  | error err =>
    simp only [bind, Except.bind] at h
    exact Except.noConfusion h

lemma except_bind_err {α β : Type} {e : Except PError α} {f : α → Except PError β}
    {err : PError} (h : (e >>= f) = Except.error err) :
    e = Except.error err ∨ ∃ a, e = Except.ok a ∧ f a = Except.error err := by
  cases e with
  | ok a => exact Or.inr ⟨a, rfl, h⟩
  | error e2 =>
    left
    simp only [bind, Except.bind] at h
    injection h with h2
    exact congrArg Except.error h2

lemma getField_ok {r : Row} {i : Nat} {s : String}
    (h : getField r i = Except.ok s) : r.get? i = some s := by
  unfold getField at h
  cases hg : r.get? i with
  | some t => rw [hg] at h; cases h; rfl
  | none => rw [hg] at h; cases h

lemma getField_of_get? {r : Row} {i : Nat} {s : String}
    (h : r.get? i = some s) : getField r i = Except.ok s := by
  unfold getField
  rw [h]

lemma getField_err {r : Row} {i : Nat} {e : PError}
    (h : getField r i = Except.error e) : e = PError.indexError ∧ r.get? i = none := by
  unfold getField at h
  cases hg : r.get? i with
  | some t => rw [hg] at h; cases h
  | none => rw [hg] at h; cases h; exact ⟨rfl, rfl⟩

lemma getField_ok_len {r : Row} {i : Nat} {s : String}
    (h : getField r i = Except.ok s) : i < r.length := by
  have := getField_ok h
  exact List.get?_eq_some.mp this |>.1

lemma is_not_cc_ok {r : Row} {b : Bool}
    (h : is_not_currency_conversion r = Except.ok b) :
    ∃ ty, r.get? type_idx = some ty ∧
      b = !(containsSubstr (lowerStr ty) "currency conversion") := by
  unfold is_not_currency_conversion at h
  obtain ⟨ty, hty, h2⟩ := except_bind_ok h
  cases h2
  exact ⟨ty, getField_ok hty, rfl⟩

lemma is_not_cc_err {r : Row} {e : PError}
    (h : is_not_currency_conversion r = Except.error e) : e = PError.indexError := by
  unfold is_not_currency_conversion at h
  rcases except_bind_err h with h1 | ⟨ty, hty, h2⟩
  · exact (getField_err h1).1
  · exact Except.noConfusion h2

lemma rowsDefault_ok_filter {cfg : Config} {rs t : List Row}
    (h : rowsDefault cfg rs = Except.ok t) :
    t = rs.filter (fun r => r.get? currency_idx == some cfg.currency) := by
  induction rs generalizing t with
  | nil => unfold rowsDefault at h; cases h; rfl
  | cons r rest ih =>
    unfold rowsDefault at h
    obtain ⟨c, hc, h⟩ := except_bind_ok h
    obtain ⟨t2, ht2, h⟩ := except_bind_ok h
    have hfield := getField_ok hc
    by_cases hcc : c = cfg.currency
    · rw [if_pos hcc] at h
      cases h
      rw [List.filter_cons]
      have hb : (r.get? currency_idx == some cfg.currency) = true := by
        rw [hfield, hcc]; simp
      rw [hb]
      simp [ih ht2]
    · rw [if_neg hcc] at h
      cases h
      rw [List.filter_cons]
      have hb : (r.get? currency_idx == some cfg.currency) = false := by
        rw [hfield]; simp [hcc]
      rw [hb]
      simp [ih ht2]

lemma rowsDefault_ok_len {cfg : Config} {rs t : List Row}
    (h : rowsDefault cfg rs = Except.ok t) :
    ∀ r ∈ rs, currency_idx < r.length := by
  induction rs generalizing t with
  | nil => intro r hr; cases hr
  | cons r0 rest ih =>
    intro r hr
    unfold rowsDefault at h
    obtain ⟨c, hc, h⟩ := except_bind_ok h
    obtain ⟨t2, ht2, _⟩ := except_bind_ok h
    rcases List.mem_cons.mp hr with rfl | hr2
    · exact getField_ok_len hc
    · exact ih ht2 r hr2

lemma rowsDefault_err {cfg : Config} {rs : List Row} {e : PError}
    (h : rowsDefault cfg rs = Except.error e) : e = PError.indexError := by
  induction rs with
  | nil => unfold rowsDefault at h; exact Except.noConfusion h
  | cons r rest ih =>
    unfold rowsDefault at h
    rcases except_bind_err h with h1 | ⟨c, hc, h⟩
    · exact (getField_err h1).1
    · rcases except_bind_err h with h2 | ⟨t2, ht2, h⟩
      · exact ih h2
      · split at h <;> exact Except.noConfusion h

lemma rowsMerge_ok_mem {cfg : Config} {rs t o : List Row}
    (h : rowsMerge cfg rs = Except.ok (t, o)) (r : Row) :
    (r ∈ t ↔ r ∈ rs ∧ r.get? currency_idx = some cfg.currency) ∧
    (r ∈ o ↔ r ∈ rs ∧ (∃ c, r.get? currency_idx = some c ∧ c ≠ cfg.currency) ∧
      (∃ ty, r.get? type_idx = some ty ∧
        containsSubstr (lowerStr ty) "currency conversion" = false)) := by
  induction rs generalizing t o with
  | nil =>
    unfold rowsMerge at h
    cases h
    simp
  | cons r0 rest ih =>
    unfold rowsMerge at h
    obtain ⟨c, hc, h⟩ := except_bind_ok h
    have hfield := getField_ok hc
    by_cases hcc : c = cfg.currency
    · rw [if_pos hcc] at h
      obtain ⟨⟨t2, o2⟩, hto, h⟩ := except_bind_ok h
      cases h
      obtain ⟨ih1, ih2⟩ := ih hto
      constructor
      · constructor
        · intro hr
          rcases List.mem_cons.mp hr with rfl | hr2
          · exact ⟨List.mem_cons_self _ _, by rw [hfield, hcc]⟩
          · obtain ⟨ha, hb⟩ := ih1.mp hr2
            exact ⟨List.mem_cons_of_mem _ ha, hb⟩
        · rintro ⟨hmem, hcur⟩
          rcases List.mem_cons.mp hmem with rfl | hr2
          · exact List.mem_cons_self _ _
          · exact List.mem_cons_of_mem _ (ih1.mpr ⟨hr2, hcur⟩)
      · constructor
        · intro hr
          obtain ⟨ha, hb⟩ := ih2.mp hr
          exact ⟨List.mem_cons_of_mem _ ha, hb⟩
        · rintro ⟨hmem, hcur, hty⟩
          rcases List.mem_cons.mp hmem with rfl | hr2
          · obtain ⟨c2, hc2, hne⟩ := hcur
            rw [hfield] at hc2
            cases hc2
            exact absurd hcc hne
          · exact ih2.mpr ⟨hr2, hcur, hty⟩
    · rw [if_neg hcc] at h
      obtain ⟨keep, hkeep, h⟩ := except_bind_ok h
      obtain ⟨⟨t2, o2⟩, hto, h⟩ := except_bind_ok h
      obtain ⟨ty0, hty0, hkv⟩ := is_not_cc_ok hkeep
      obtain ⟨ih1, ih2⟩ := ih hto
      cases keep with
      | true =>
        have h2 : Except.ok (ε := PError) (t2, r0 :: o2) = Except.ok (t, o) := h
        cases h2
        have hconv0 : containsSubstr (lowerStr ty0) "currency conversion" = false := by
          cases hcv : containsSubstr (lowerStr ty0) "currency conversion"
          · rfl
          · rw [hcv] at hkv; exact Bool.noConfusion hkv
        constructor
        · constructor
          · intro hr
            obtain ⟨ha, hb⟩ := ih1.mp hr
            exact ⟨List.mem_cons_of_mem _ ha, hb⟩
          · rintro ⟨hmem, hcur⟩
            rcases List.mem_cons.mp hmem with rfl | hr2
            · rw [hfield] at hcur
              cases hcur
              exact absurd rfl hcc
            · exact ih1.mpr ⟨hr2, hcur⟩
        · constructor
          · intro hr
            rcases List.mem_cons.mp hr with rfl | hr2
            · exact ⟨List.mem_cons_self _ _, ⟨c, hfield, hcc⟩, ⟨ty0, hty0, hconv0⟩⟩
            · obtain ⟨ha, hb⟩ := ih2.mp hr2
              exact ⟨List.mem_cons_of_mem _ ha, hb⟩
          · rintro ⟨hmem, hcur, htyp⟩
            rcases List.mem_cons.mp hmem with rfl | hr2
            · exact List.mem_cons_self _ _
            · exact List.mem_cons_of_mem _ (ih2.mpr ⟨hr2, hcur, htyp⟩)
      | false =>
        have h2 : Except.ok (ε := PError) (t2, o2) = Except.ok (t, o) := h
        cases h2
        have hconv0 : containsSubstr (lowerStr ty0) "currency conversion" = true := by
          cases hcv : containsSubstr (lowerStr ty0) "currency conversion"
          · rw [hcv] at hkv; exact Bool.noConfusion hkv
          · rfl
        constructor
        · constructor
          · intro hr
            obtain ⟨ha, hb⟩ := ih1.mp hr
            exact ⟨List.mem_cons_of_mem _ ha, hb⟩
          · rintro ⟨hmem, hcur⟩
            rcases List.mem_cons.mp hmem with rfl | hr2
            · rw [hfield] at hcur
              cases hcur
              exact absurd rfl hcc
            · exact ih1.mpr ⟨hr2, hcur⟩
        · constructor
          · intro hr
            obtain ⟨ha, hb⟩ := ih2.mp hr
            exact ⟨List.mem_cons_of_mem _ ha, hb⟩
          · rintro ⟨hmem, hcur, htyp⟩
            rcases List.mem_cons.mp hmem with rfl | hr2
            · obtain ⟨ty1, hty1, hconv1⟩ := htyp
              rw [hty0] at hty1
              cases hty1
              rw [hconv0] at hconv1
              exact Bool.noConfusion hconv1
            · exact ih2.mpr ⟨hr2, hcur, htyp⟩

lemma rowsMerge_ok_len {cfg : Config} {rs t o : List Row}
    (h : rowsMerge cfg rs = Except.ok (t, o)) :
    ∀ r ∈ rs, currency_idx < r.length := by
  induction rs generalizing t o with
  | nil => intro r hr; cases hr
  | cons r0 rest ih =>
    intro r hr
    unfold rowsMerge at h
    obtain ⟨c, hc, h⟩ := except_bind_ok h
    rcases List.mem_cons.mp hr with rfl | hr2
    · exact getField_ok_len hc
    · split at h
      · obtain ⟨⟨t2, o2⟩, hto, _⟩ := except_bind_ok h
        exact ih hto r hr2
      · obtain ⟨keep, hkeep, h⟩ := except_bind_ok h
        obtain ⟨⟨t2, o2⟩, hto, _⟩ := except_bind_ok h
        exact ih hto r hr2

lemma rowsMerge_err {cfg : Config} {rs : List Row} {e : PError}
    (h : rowsMerge cfg rs = Except.error e) : e = PError.indexError := by
  induction rs with
  | nil => unfold rowsMerge at h; exact Except.noConfusion h
  | cons r0 rest ih =>
    unfold rowsMerge at h
    rcases except_bind_err h with h1 | ⟨c, hc, h⟩
    · exact (getField_err h1).1
    · split at h
      · rcases except_bind_err h with h2 | ⟨⟨t2, o2⟩, hto, h⟩
        · exact ih h2
        · exact Except.noConfusion h
      · rcases except_bind_err h with h2 | ⟨keep, hkeep, h⟩
        · exact is_not_cc_err h2
        · rcases except_bind_err h with h3 | ⟨⟨t2, o2⟩, hto, h⟩
          · exact ih h3
          · cases keep <;> exact Except.noConfusion h

lemma rows_err {cfg : Config} {rs : List Row} {e : PError}
    (h : rows cfg rs = Except.error e) : e = PError.indexError := by
  unfold rows at h
  split at h
  · cases hd : rowsDefault cfg rs with
    | ok t => rw [hd] at h; exact Except.noConfusion h
    | error e2 =>
      rw [hd] at h
      cases h
      exact rowsDefault_err hd
  · exact rowsMerge_err h

lemma rows_default_ok {cfg : Config} {rs t o : List Row}
    (hm : cfg.merge_payee = false) (h : rows cfg rs = Except.ok (t, o)) :
    rowsDefault cfg rs = Except.ok t ∧ o = [] := by
  unfold rows at h
  rw [if_pos hm] at h
  cases hd : rowsDefault cfg rs with
  | ok t2 =>
    rw [hd] at h
    have h2 : Except.ok (ε := PError) (t2, ([] : List Row)) = Except.ok (t, o) := h
    cases h2
    exact ⟨rfl, rfl⟩
  | error e2 =>
    rw [hd] at h
    exact Except.noConfusion h

lemma rows_merge_ok {cfg : Config} {rs t o : List Row}
    (hm : cfg.merge_payee = true) (h : rows cfg rs = Except.ok (t, o)) :
    rowsMerge cfg rs = Except.ok (t, o) := by
  unfold rows at h
  rw [if_neg (fun hh => Bool.noConfusion (hm.symm.trans hh))] at h
  exact h

lemma get_matching_none {other : List Row} {row : Row} {q : List Row}
    (h : get_matching_transaction other row = Except.ok (none, q)) : q = other := by
  induction other generalizing q with
  | nil => unfold get_matching_transaction at h; cases h; rfl
  | cons oc rest ih =>
    unfold get_matching_transaction at h
    obtain ⟨od, hod, h⟩ := except_bind_ok h
    obtain ⟨rd, hrd, h⟩ := except_bind_ok h
    split at h
    · obtain ⟨ot, hot, h⟩ := except_bind_ok h
      obtain ⟨rt, hrt, h⟩ := except_bind_ok h
      split at h
      · have h2 : Except.ok (ε := PError) (some oc, rest) = Except.ok (none, q) := h
        injection h2 with h3
        injection h3 with h4 h5
        exact Option.noConfusion h4
      · obtain ⟨⟨m, r2⟩, hm, h⟩ := except_bind_ok h
        have h2 : Except.ok (ε := PError) (m, oc :: r2) = Except.ok (none, q) := h
        cases h2
        rw [ih hm]
    · obtain ⟨⟨m, r2⟩, hm, h⟩ := except_bind_ok h
      have h2 : Except.ok (ε := PError) (m, oc :: r2) = Except.ok (none, q) := h
      cases h2
      rw [ih hm]

lemma get_matching_some {other : List Row} {row m : Row} {q : List Row} {d t : String}
    (hd : row.get? date_idx = some d) (ht : row.get? time_idx = some t)
    (h : get_matching_transaction other row = Except.ok (some m, q)) :
    ∃ i, other.get? i = some m ∧ m.get? date_idx = some d ∧ m.get? time_idx = some t ∧
      q = other.eraseIdx i ∧
      ∀ j r', j < i → other.get? j = some r' →
        ¬(r'.get? date_idx = some d ∧ r'.get? time_idx = some t) := by
  induction other generalizing q with
  | nil => unfold get_matching_transaction at h; cases h
  | cons oc rest ih =>
    unfold get_matching_transaction at h
    obtain ⟨od, hod, h⟩ := except_bind_ok h
    obtain ⟨rd, hrd, h⟩ := except_bind_ok h
    have hodf := getField_ok hod
    have hrdeq : rd = d := by
      have := (getField_ok hrd).symm.trans hd
      injection this
    split at h
    · rename_i hodrd
      obtain ⟨ot, hot, h⟩ := except_bind_ok h
      obtain ⟨rt, hrt, h⟩ := except_bind_ok h
      have hotf := getField_ok hot
      have hrteq : rt = t := by
        have := (getField_ok hrt).symm.trans ht
        injection this
      split at h
      · rename_i hotrt
        have h2 : Except.ok (ε := PError) (some oc, rest) = Except.ok (some m, q) := h
        injection h2 with h3
        injection h3 with h4 h5
        injection h4 with h6
        subst h6 h5
        refine ⟨0, rfl, ?_, ?_, rfl, ?_⟩
        · rw [hodf, hodrd, hrdeq]
        · rw [hotf, hotrt, hrteq]
        · intro j r' hj
          exact absurd hj (Nat.not_lt_zero j)
      · rename_i hotrt
        obtain ⟨⟨m2, r2⟩, hm2, h⟩ := except_bind_ok h
        have h2 : Except.ok (ε := PError) (m2, oc :: r2) = Except.ok (some m, q) := h
        cases h2
        obtain ⟨i, hi, hmd, hmt, herase, hblock⟩ := ih hm2
        refine ⟨i + 1, by simpa using hi, hmd, hmt, by rw [herase]; rfl, ?_⟩
        intro j r' hj hjr hmatch2
        cases j with
        | zero =>
          have hoc : r' = oc := by injection hjr with hh; exact hh.symm
          subst hoc
          obtain ⟨hr'd, hr't⟩ := hmatch2
          have hoteq : ot = t := by
            have := hotf.symm.trans hr't
            injection this
          exact hotrt (hoteq.trans hrteq.symm)
        | succ j2 =>
          exact hblock j2 r' (Nat.lt_of_succ_lt_succ hj) (by simpa using hjr) hmatch2
    · rename_i hodrd
      obtain ⟨⟨m2, r2⟩, hm2, h⟩ := except_bind_ok h
      have h2 : Except.ok (ε := PError) (m2, oc :: r2) = Except.ok (some m, q) := h
      cases h2
      obtain ⟨i, hi, hmd, hmt, herase, hblock⟩ := ih hm2
      refine ⟨i + 1, by simpa using hi, hmd, hmt, by rw [herase]; rfl, ?_⟩
      intro j r' hj hjr hmatch2
      cases j with
      | zero =>
        have hoc : r' = oc := by injection hjr with hh; exact hh.symm
        subst hoc
        obtain ⟨hr'd, hr't⟩ := hmatch2
        have hodeq : od = d := by
          have := hodf.symm.trans hr'd
          injection this
        exact hodrd (hodeq.trans hrdeq.symm)
      | succ j2 =>
        exact hblock j2 r' (Nat.lt_of_succ_lt_succ hj) (by simpa using hjr) hmatch2

lemma get_matching_err {other : List Row} {row : Row} {e : PError}
    (h : get_matching_transaction other row = Except.error e) : e = PError.indexError := by
  induction other with
  | nil => unfold get_matching_transaction at h; exact Except.noConfusion h
  | cons oc rest ih =>
    unfold get_matching_transaction at h
    rcases except_bind_err h with h1 | ⟨od, hod, h⟩
    · exact (getField_err h1).1
    · rcases except_bind_err h with h1 | ⟨rd, hrd, h⟩
      · exact (getField_err h1).1
      · split at h
        · rcases except_bind_err h with h1 | ⟨ot, hot, h⟩
          · exact (getField_err h1).1
          · rcases except_bind_err h with h1 | ⟨rt, hrt, h⟩
            · exact (getField_err h1).1
            · split at h
              · exact Except.noConfusion h
              · rcases except_bind_err h with h1 | ⟨⟨m2, r2⟩, hm2, h⟩
                · exact ih h1
                · exact Except.noConfusion h
        · rcases except_bind_err h with h1 | ⟨⟨m2, r2⟩, hm2, h⟩
          · exact ih h1
          · exact Except.noConfusion h

lemma strptimeDMY_err {s : String} {e : PError}
    (h : strptimeDMY s = Except.error e) : e = PError.dateParseError s := by
  unfold strptimeDMY at h
  split at h
  · split at h
    · split at h
      · exact Except.noConfusion h
      · injection h with h2; exact h2.symm
    · injection h with h2; exact h2.symm
  · injection h with h2; exact h2.symm

lemma localeAtof_err {loc : NumLocale} {s : String} {e : PError}
    (h : localeAtof loc s = Except.error e) : e = PError.numberParseError s := by
  unfold localeAtof at h
  split at h
  · exact Except.noConfusion h
  · injection h with h2; exact h2.symm

/-- The errors a single row's transformation can raise: index errors and
the per-row date/number parse errors — never a schema mismatch. -/
def rowErr (e : PError) : Prop :=
  e = PError.indexError ∨ (∃ s, e = PError.dateParseError s) ∨
    (∃ s, e = PError.numberParseError s)

/-- Full case analysis of a successful `parse_record`: which row fields it
read, how the line's fields were produced, and — decisive for the id
claims — that `id` is always computed from the row's own Type (memo) and
Name (payee) fields even when merge mode later overwrites `memo`/`payee`
from a matched pending row. -/
lemma parse_record_ok_shape {cfg : Config} {other : List Row} {row : Row}
    {line : StatementLine} {p' : List Row}
    (h : parse_record cfg other row = Except.ok (line, p')) :
    ∃ ds memo am payee,
      row.get? date_idx = some ds ∧
      row.get? type_idx = some memo ∧
      row.get? amount_idx = some am ∧
      row.get? payee_idx = some payee ∧
      strptimeDMY ds = Except.ok line.date ∧
      localeAtof cfg.numLocale (removeSpaces am) = Except.ok line.amount ∧
      line.id = generate_transaction_id line.date memo line.amount payee ∧
      (cfg.merge_payee = false → line.memo = memo ∧ line.payee = payee ∧ p' = other) ∧
      (cfg.merge_payee = true →
        containsSubstr (lowerStr memo) "currency conversion" = false →
        line.memo = memo ∧ line.payee = payee ∧ p' = other) ∧
      (cfg.merge_payee = true →
        containsSubstr (lowerStr memo) "currency conversion" = true →
        ((get_matching_transaction other row = Except.ok (none, p') ∧
          line.memo = memo ∧ line.payee = payee) ∨
        (∃ mr mn mt, get_matching_transaction other row = Except.ok (some mr, p') ∧
          mr.get? payee_idx = some mn ∧ mr.get? type_idx = some mt ∧
          line.memo = mt ∧ line.payee = mn))) := by
  unfold parse_record at h
  obtain ⟨ds, hds, h⟩ := except_bind_ok h
  obtain ⟨date, hdate, h⟩ := except_bind_ok h
  obtain ⟨memo, hmemo, h⟩ := except_bind_ok h
  obtain ⟨am, ham, h⟩ := except_bind_ok h
  obtain ⟨amount, hamount, h⟩ := except_bind_ok h
  obtain ⟨payee, hpayee, h⟩ := except_bind_ok h
  have hncc : is_not_currency_conversion row =
      Except.ok (!(containsSubstr (lowerStr memo) "currency conversion")) := by
    unfold is_not_currency_conversion
    rw [show getField row type_idx = Except.ok memo from hmemo]
    rfl
  refine ⟨ds, memo, am, payee, getField_ok hds, getField_ok hmemo, getField_ok ham,
    getField_ok hpayee, ?_⟩
  cases hm : cfg.merge_payee with
  | false =>
    rw [hm] at h
    have h2 : Except.ok (ε := PError)
        (StatementLine.mk date memo amount payee
          (generate_transaction_id date memo amount payee), other) =
        Except.ok (line, p') := h
    cases h2
    exact ⟨hdate, hamount, rfl, fun _ => ⟨rfl, rfl, rfl⟩,
      fun hmm => Bool.noConfusion hmm, fun hmm => Bool.noConfusion hmm⟩
  | true =>
    rw [hm] at h
    have h3 : (do
        let notConv ← is_not_currency_conversion row
        if notConv then
          Except.ok (StatementLine.mk date memo amount payee
            (generate_transaction_id date memo amount payee), other)
        else do
          let (m, other2) ← get_matching_transaction other row
          match m with
          | some mr => do
            let mn ← getField mr payee_idx
            let mt ← getField mr type_idx
            Except.ok ({ StatementLine.mk date memo amount payee
              (generate_transaction_id date memo amount payee) with
                payee := mn, memo := mt }, other2)
          | none => Except.ok (StatementLine.mk date memo amount payee
              (generate_transaction_id date memo amount payee), other2)) =
        Except.ok (line, p') := h
    rw [hncc] at h3
    obtain ⟨keep, hkeep, h4⟩ := except_bind_ok h3
    have hkeepv : keep = !(containsSubstr (lowerStr memo) "currency conversion") := by
      injection hkeep with hk
      exact hk.symm
    cases hcv : containsSubstr (lowerStr memo) "currency conversion" with
    | false =>
      rw [hcv] at hkeepv
      subst hkeepv
      have h5 : Except.ok (ε := PError)
          (StatementLine.mk date memo amount payee
            (generate_transaction_id date memo amount payee), other) =
          Except.ok (line, p') := h4
      cases h5
      exact ⟨hdate, hamount, rfl, fun _ => ⟨rfl, rfl, rfl⟩,
        fun _ _ => ⟨rfl, rfl, rfl⟩, fun _ hcc => Bool.noConfusion hcc⟩
    | true =>
      rw [hcv] at hkeepv
      subst hkeepv
      obtain ⟨⟨m, other2⟩, hmo, h5⟩ := except_bind_ok h4
      cases m with
      | none =>
        have h6 : Except.ok (ε := PError)
            (StatementLine.mk date memo amount payee
              (generate_transaction_id date memo amount payee), other2) =
            Except.ok (line, p') := h5
        cases h6
        refine ⟨hdate, hamount, rfl, fun hmm => Bool.noConfusion hmm,
          fun _ hcc => Bool.noConfusion hcc, ?_⟩
        intro _ _
        exact Or.inl ⟨hmo, rfl, rfl⟩
      | some mr =>
        obtain ⟨mn, hmn, h6⟩ := except_bind_ok h5
        obtain ⟨mt, hmt, h7⟩ := except_bind_ok h6
        have h8 : Except.ok (ε := PError)
            ({ StatementLine.mk date memo amount payee
              (generate_transaction_id date memo amount payee) with
                payee := mn, memo := mt }, other2) =
            Except.ok (line, p') := h7
        cases h8
        refine ⟨hdate, hamount, rfl, fun hmm => Bool.noConfusion hmm,
          fun _ hcc => Bool.noConfusion hcc, ?_⟩
        intro _ _
        exact Or.inr ⟨mr, mn, mt, hmo, getField_ok hmn, getField_ok hmt, rfl, rfl⟩

lemma parse_record_err {cfg : Config} {other : List Row} {row : Row} {e : PError}
    (h : parse_record cfg other row = Except.error e) : rowErr e := by
  unfold parse_record at h
  rcases except_bind_err h with h1 | ⟨ds, hds, h⟩
  · exact Or.inl (getField_err h1).1
  · rcases except_bind_err h with h1 | ⟨date, hdate, h⟩
    · exact Or.inr (Or.inl ⟨ds, strptimeDMY_err h1⟩)
    · rcases except_bind_err h with h1 | ⟨memo, hmemo, h⟩
      · exact Or.inl (getField_err h1).1
      · rcases except_bind_err h with h1 | ⟨am, ham, h⟩
        · exact Or.inl (getField_err h1).1
        · rcases except_bind_err h with h1 | ⟨amount, hamount, h⟩
          · exact Or.inr (Or.inr ⟨_, localeAtof_err h1⟩)
          · rcases except_bind_err h with h1 | ⟨payee, hpayee, h⟩
            · exact Or.inl (getField_err h1).1
            · cases hm : cfg.merge_payee with
              | false => rw [hm] at h; exact Except.noConfusion h
              | true =>
                rw [hm] at h
                rcases except_bind_err h with h1 | ⟨notConv, hnc, h⟩
                · exact Or.inl (is_not_cc_err h1)
                · cases notConv with
                  | true => exact Except.noConfusion h
                  | false =>
                    rcases except_bind_err h with h1 | ⟨⟨m2, o2⟩, hmo, h⟩
                    · exact Or.inl (get_matching_err h1)
                    · cases m2 with
                      | none => exact Except.noConfusion h
                      | some mr =>
                        rcases except_bind_err h with h1 | ⟨mn, hmn, h⟩
                        · exact Or.inl (getField_err h1).1
                        · rcases except_bind_err h with h1 | ⟨mt, hmt, h⟩
                          · exact Or.inl (getField_err h1).1
                          · exact Except.noConfusion h

lemma parse_all_err {cfg : Config} {other rs : List Row} {e : PError}
    (h : parse_all cfg other rs = Except.error e) : rowErr e := by
  induction rs generalizing other with
  | nil => unfold parse_all at h; exact Except.noConfusion h
  | cons r rest ih =>
    unfold parse_all at h
    rcases except_bind_err h with h1 | ⟨⟨l, o2⟩, hl, h⟩
    · exact parse_record_err h1
    · rcases except_bind_err h with h1 | ⟨⟨ls, o3⟩, hls, h⟩
      · exact ih h1
      · exact Except.noConfusion h

lemma parse_record_ok_len {cfg : Config} {other : List Row} {row : Row}
    {line : StatementLine} {p' : List Row}
    (h : parse_record cfg other row = Except.ok (line, p')) :
    amount_idx < row.length := by
  obtain ⟨ds, memo, am, payee, _, _, ham, _⟩ := parse_record_ok_shape h
  exact List.get?_eq_some.mp ham |>.1

lemma ok_bind {α β : Type} (a : α) (f : α → Except PError β) :
    (Except.ok a >>= f) = f a := rfl

/-- The locale-state bridge: when the configured locale name is supported
and resolves to conventions `nl`, the stateful `atof` computes exactly
`localeAtof nl` (the pure function the pipeline uses). -/
lemma atof_value_bridge (sys : LocaleSystem) (l : String) (nl : NumLocale)
    (s : String) (st : String)
    (hs : sys.supported l = true) (hc : sys.conv l = nl) :
    (atof sys (some l) s st).1 = localeAtof nl s := by
  show (if sys.supported l = true then
      ((localeAtof (sys.conv l) s, l).1, st) else
      (Except.error (PError.localeError l), st)).1 = localeAtof nl s
  rw [hs, hc]
  rfl

/-- If no pending row shares the current row's Date and Time (and every
pending row has those fields), the scan finds nothing and leaves the
pending list unchanged. -/
lemma get_matching_no_match {row : Row} {d t : String}
    (hd : row.get? date_idx = some d) (ht : row.get? time_idx = some t) :
    ∀ other : List Row,
      (∀ r' ∈ other, ∃ d' t', r'.get? date_idx = some d' ∧
        r'.get? time_idx = some t' ∧ ¬(d' = d ∧ t' = t)) →
      get_matching_transaction other row = Except.ok (none, other) := by
  intro other
  induction other with
  | nil => intro _; rfl
  | cons oc rest ih =>
    intro hno
    obtain ⟨d0, t0, hd0, ht0, hnm⟩ := hno oc (List.mem_cons_self _ _)
    unfold get_matching_transaction
    rw [getField_of_get? hd0, getField_of_get? hd]
    simp only [ok_bind]
    by_cases hdd : d0 = d
    · rw [if_pos hdd]
      rw [getField_of_get? ht0, getField_of_get? ht]
      simp only [ok_bind]
      have htt : ¬t0 = t := fun htt => hnm ⟨hdd, htt⟩
      rw [if_neg htt]
      rw [ih (fun r' hr' => hno r' (List.mem_cons_of_mem _ hr'))]
      rfl
    · rw [if_neg hdd]
      rw [ih (fun r' hr' => hno r' (List.mem_cons_of_mem _ hr'))]
      rfl

/-- If some pending row (in a list whose rows all carry Date and Time
fields) shares the current row's Date and Time, the scan finds one. -/
lemma get_matching_finds {row : Row} {d t : String}
    (hd : row.get? date_idx = some d) (ht : row.get? time_idx = some t) :
    ∀ other : List Row,
      (∀ r' ∈ other, ∃ d' t', r'.get? date_idx = some d' ∧
        r'.get? time_idx = some t') →
      (∃ r' ∈ other, r'.get? date_idx = some d ∧ r'.get? time_idx = some t) →
      ∃ m2 q2, get_matching_transaction other row = Except.ok (some m2, q2) := by
  intro other
  induction other with
  | nil =>
    intro _ hex
    obtain ⟨r', hr', _⟩ := hex
    cases hr'
  | cons oc rest ih =>
    intro hwf hex
    obtain ⟨d0, t0, hd0, ht0⟩ := hwf oc (List.mem_cons_self _ _)
    unfold get_matching_transaction
    rw [getField_of_get? hd0, getField_of_get? hd]
    simp only [ok_bind]
    by_cases hdd : d0 = d
    · rw [if_pos hdd]
      rw [getField_of_get? ht0, getField_of_get? ht]
      simp only [ok_bind]
      by_cases htt : t0 = t
      · rw [if_pos htt]
        exact ⟨oc, rest, rfl⟩
      · rw [if_neg htt]
        have hex2 : ∃ r' ∈ rest, r'.get? date_idx = some d ∧
            r'.get? time_idx = some t := by
          obtain ⟨r', hr', hrd, hrt⟩ := hex
          rcases List.mem_cons.mp hr' with rfl | hmem
          · exfalso
            have : t0 = t := by
              have h2 := ht0.symm.trans hrt
              injection h2
            exact htt this
          · exact ⟨r', hmem, hrd, hrt⟩
        obtain ⟨m2, q2, hmq⟩ := ih (fun r' hr' => hwf r' (List.mem_cons_of_mem _ hr')) hex2
        rw [hmq]
        exact ⟨m2, oc :: q2, rfl⟩
    · rw [if_neg hdd]
      have hex2 : ∃ r' ∈ rest, r'.get? date_idx = some d ∧
          r'.get? time_idx = some t := by
        obtain ⟨r', hr', hrd, hrt⟩ := hex
        rcases List.mem_cons.mp hr' with rfl | hmem
        · exfalso
          have : d0 = d := by
            have h2 := hd0.symm.trans hrd
            injection h2
          exact hdd this
        · exact ⟨r', hmem, hrd, hrt⟩
      obtain ⟨m2, q2, hmq⟩ := ih (fun r' hr' => hwf r' (List.mem_cons_of_mem _ hr')) hex2
      rw [hmq]
      exact ⟨m2, oc :: q2, rfl⟩

/-- `process` on a nonempty input, unfolded one step: header validation
first, then filtering, then the transformation loop. -/
lemma process_cons (cfg : Config) (hdr : Row) (rest : List Row) :
    process cfg (hdr :: rest) =
      (validate (hdr.map stripStr) >>= fun _ =>
        rows cfg rest >>= fun p =>
        parse_all cfg p.2 p.1 >>= fun q =>
        Except.ok q.1) := rfl

/-! ### Claim theorems -/

/-- **C2** (confirmed).  If the first CSV row, with each field stripped of
surrounding whitespace, is not element-wise equal to the fixed schema,
parsing fails with a `SchemaMismatch` error reporting both the expected
and actual header lists — and it does so whatever the remaining rows are,
i.e. before any row is transformed; if the header matches, no
`SchemaMismatch` error is ever raised. -/
theorem header_mismatch_schema_error (cfg : Config) (hdr : Row) (rest : List Row) :
    (hdr.map stripStr ≠ valid_header →
      process cfg (hdr :: rest) =
        Except.error (PError.schemaMismatch valid_header (hdr.map stripStr))) ∧
    (hdr.map stripStr = valid_header →
      ∀ exp act, process cfg (hdr :: rest) ≠ Except.error (PError.schemaMismatch exp act)) := by
  constructor
  · intro hne
    have hv : validate (hdr.map stripStr) =
        Except.error (PError.schemaMismatch valid_header (hdr.map stripStr)) := by
      unfold validate
      rw [if_neg (fun hh => hne hh.symm)]
    rw [process_cons, hv]
    rfl
  · intro heq exp act hcontra
    have hv : validate (hdr.map stripStr) = Except.ok () := by
      unfold validate
      rw [if_pos heq.symm]
    rw [process_cons, hv] at hcontra
    have hcontra2 : (rows cfg rest >>= fun p =>
        parse_all cfg p.2 p.1 >>= fun q =>
        Except.ok (ε := PError) q.1) = Except.error (PError.schemaMismatch exp act) :=
      hcontra
    rcases except_bind_err hcontra2 with h1 | ⟨⟨t, o⟩, hto, h3⟩
    · exact PError.noConfusion (rows_err h1)
    · rcases except_bind_err h3 with h1 | ⟨⟨lines, o2⟩, hlines, h4⟩
      · rcases parse_all_err h1 with h2 | ⟨s2, h2⟩ | ⟨s2, h2⟩ <;> exact PError.noConfusion h2
      · exact Except.noConfusion h4

/-- Witness for `header_mismatch_schema_error`: a header differing from
the schema yields exactly the mismatch error; the well-formed header does
not. -/
theorem header_mismatch_schema_error_wit :
    process defaultCfg [["Bad"]] =
      Except.error (PError.schemaMismatch valid_header ["Bad"]) ∧
    process defaultCfg [headerRow] ≠
      Except.error (PError.schemaMismatch valid_header (headerRow.map stripStr)) :=
  ⟨(header_mismatch_schema_error defaultCfg ["Bad"] []).1 (by decide),
   (header_mismatch_schema_error defaultCfg headerRow []).2 (by decide) _ _⟩

/-- **C4** (confirmed).  In default mode the retained rows are exactly the
rows whose Currency field equals the configured currency (so every
retained row carries the target currency and no other row survives
filtering), and the pending-foreign list stays empty. -/
theorem default_mode_currency_filter (cfg : Config) (rs t o : List Row)
    (hm : cfg.merge_payee = false) (hok : rows cfg rs = Except.ok (t, o)) :
    t = rs.filter (fun r => r.get? currency_idx == some cfg.currency) ∧
    (∀ r ∈ t, r.get? currency_idx = some cfg.currency) ∧
    o = [] := by
  obtain ⟨hd, ho⟩ := rows_default_ok hm hok
  have hfil := rowsDefault_ok_filter hd
  refine ⟨hfil, ?_, ho⟩
  intro r hr
  rw [hfil] at hr
  have hb := List.of_mem_filter hr
  exact beq_iff_eq.mp hb

/-- Witness for `default_mode_currency_filter` on a two-row input where
the EUR row is dropped. -/
theorem default_mode_currency_filter_wit :
    [plainRow] = ([plainRow, foreignRow] : List Row).filter
      (fun r => r.get? currency_idx == some defaultCfg.currency) ∧
    (∀ r ∈ [plainRow], r.get? currency_idx = some defaultCfg.currency) ∧
    ([] : List Row) = [] :=
  default_mode_currency_filter defaultCfg [plainRow, foreignRow] [plainRow] []
    (by decide) (by decide)

/-- **C5** (confirmed).  In merge mode, a foreign-currency row enters the
pending set exactly when its Type field lacks the case-insensitive
substring "currency conversion"; a foreign conversion row lands neither in
the pending set nor among the retained (output-producing) rows. -/
theorem merge_mode_foreign_classification (cfg : Config) (rs t o : List Row) (r : Row)
    (hm : cfg.merge_payee = true) (hok : rows cfg rs = Except.ok (t, o)) :
    (r ∈ o ↔ r ∈ rs ∧ (∃ c, r.get? currency_idx = some c ∧ c ≠ cfg.currency) ∧
      (∃ ty, r.get? type_idx = some ty ∧
        containsSubstr (lowerStr ty) "currency conversion" = false)) ∧
    (∀ c ty, r.get? currency_idx = some c → c ≠ cfg.currency →
      r.get? type_idx = some ty →
      containsSubstr (lowerStr ty) "currency conversion" = true →
      r ∉ t ∧ r ∉ o) := by
  have hmm := rowsMerge_ok_mem (rows_merge_ok hm hok) r
  refine ⟨hmm.2, ?_⟩
  intro c ty hc hcne hty hconv
  constructor
  · intro hrt
    have h2 := (hmm.1.mp hrt).2
    rw [hc] at h2
    injection h2 with h3
    exact hcne h3
  · intro hro
    obtain ⟨_, _, ty2, hty2, hconv2⟩ := hmm.2.mp hro
    rw [hty] at hty2
    injection hty2 with h3
    rw [← h3, hconv] at hconv2
    exact Bool.noConfusion hconv2

/-- Witness for `merge_mode_foreign_classification`: the EUR Payment row
is pending; a EUR conversion row is dropped entirely. -/
theorem merge_mode_foreign_classification_wit :
    foreignRow ∈ ([foreignRow] : List Row) ∧
    (["01/02/2020", "10:00:00", "PST", "Bank", "Currency Conversion", "Completed",
      "EUR", "-11.00", "R9", "0.00"] : Row) ∉ ([conversionRow] : List Row) := by
  have h1 := merge_mode_foreign_classification mergeCfg
    [foreignRow, conversionRow,
      ["01/02/2020", "10:00:00", "PST", "Bank", "Currency Conversion", "Completed",
        "EUR", "-11.00", "R9", "0.00"]]
    [conversionRow] [foreignRow] foreignRow (by decide) (by decide)
  have h2 := merge_mode_foreign_classification mergeCfg
    [foreignRow, conversionRow,
      ["01/02/2020", "10:00:00", "PST", "Bank", "Currency Conversion", "Completed",
        "EUR", "-11.00", "R9", "0.00"]]
    [conversionRow] [foreignRow]
    ["01/02/2020", "10:00:00", "PST", "Bank", "Currency Conversion", "Completed",
      "EUR", "-11.00", "R9", "0.00"] (by decide) (by decide)
  refine ⟨?_, (h2.2 "EUR" "Currency Conversion" (by decide) (by decide) (by decide)
    (by decide)).1⟩
  exact h1.1.mpr ⟨by decide, ⟨"EUR", by decide, by decide⟩, ⟨"Payment", by decide, by decide⟩⟩

/-- **C3** (confirmed).  In merge mode, when a retained target-currency
conversion row is transformed and the scan of the pending set finds a row
sharing its Date and Time, the found row is the first such entry in
insertion order, it is removed from the pending set, and the emitted
line's payee/memo are that entry's Name/Type; moreover whenever the
pending set contains a (field-complete) matching entry the scan does find
one. -/
theorem merge_match_overwrites_payee_memo (cfg : Config) (other : List Row) (row m : Row)
    (line : StatementLine) (p' q : List Row) (ty mn mt d t : String)
    (hm : cfg.merge_payee = true)
    (hty : row.get? type_idx = some ty)
    (hconv : containsSubstr (lowerStr ty) "currency conversion" = true)
    (hd : row.get? date_idx = some d)
    (ht : row.get? time_idx = some t)
    (hmatch : get_matching_transaction other row = Except.ok (some m, q))
    (hmn : m.get? payee_idx = some mn)
    (hmt : m.get? type_idx = some mt)
    (hok : parse_record cfg other row = Except.ok (line, p')) :
    line.payee = mn ∧ line.memo = mt ∧ p' = q ∧
    (∃ i, other.get? i = some m ∧ m.get? date_idx = some d ∧
      m.get? time_idx = some t ∧ q = other.eraseIdx i ∧
      ∀ j r', j < i → other.get? j = some r' →
        ¬(r'.get? date_idx = some d ∧ r'.get? time_idx = some t)) ∧
    (∀ other2 : List Row,
      (∀ r' ∈ other2, ∃ d' t', r'.get? date_idx = some d' ∧
        r'.get? time_idx = some t') →
      (∃ r' ∈ other2, r'.get? date_idx = some d ∧ r'.get? time_idx = some t) →
      ∃ m2 q2, get_matching_transaction other2 row = Except.ok (some m2, q2)) := by
  obtain ⟨ds, memo2, am2, payee2, _, hmemo2, _, _, _, _, _, _, _, hcc⟩ :=
    parse_record_ok_shape hok
  have hmeq : memo2 = ty := by
    have h2 := hmemo2.symm.trans hty
    injection h2
  subst hmeq
  rcases hcc hm hconv with ⟨hnone, _, _⟩ | ⟨mr, mn2, mt2, hsome, hmn2, hmt2, hlm, hlp⟩
  · rw [hmatch] at hnone
    injection hnone with h2
    injection h2 with h3 h4
    exact Option.noConfusion h3
  · rw [hmatch] at hsome
    injection hsome with h2
    injection h2 with h3 h4
    injection h3 with h5
    subst h5 h4
    have hmneq : mn2 = mn := by
      have h6 := hmn2.symm.trans hmn
      injection h6
    have hmteq : mt2 = mt := by
      have h6 := hmt2.symm.trans hmt
      injection h6
    subst hmneq hmteq
    exact ⟨hlp, hlm, rfl, get_matching_some hd ht hmatch,
      fun other2 hwf hex => get_matching_finds hd ht other2 hwf hex⟩

/-- Witness for `merge_match_overwrites_payee_memo`: the USD conversion
row paired with the pending EUR row adopts "Jane Doe"/"Payment". -/
theorem merge_match_overwrites_payee_memo_wit :
    mergedConvLine.payee = "Jane Doe" ∧ mergedConvLine.memo = "Payment" ∧
    ([] : List Row) = [] ∧
    (∃ i, ([foreignRow] : List Row).get? i = some foreignRow ∧
      foreignRow.get? date_idx = some "01/02/2020" ∧
      foreignRow.get? time_idx = some "10:00:00" ∧
      ([] : List Row) = ([foreignRow] : List Row).eraseIdx i ∧
      ∀ j r', j < i → ([foreignRow] : List Row).get? j = some r' →
        ¬(r'.get? date_idx = some "01/02/2020" ∧
          r'.get? time_idx = some "10:00:00")) ∧
    (∀ other2 : List Row,
      (∀ r' ∈ other2, ∃ d' t', r'.get? date_idx = some d' ∧
        r'.get? time_idx = some t') →
      (∃ r' ∈ other2, r'.get? date_idx = some "01/02/2020" ∧
        r'.get? time_idx = some "10:00:00") →
      ∃ m2 q2, get_matching_transaction other2 conversionRow =
        Except.ok (some m2, q2)) :=
  merge_match_overwrites_payee_memo mergeCfg [foreignRow] conversionRow foreignRow
    mergedConvLine [] [] "Currency Conversion" "Jane Doe" "Payment" "01/02/2020"
    "10:00:00" (by decide) (by decide) (by decide) (by decide) (by decide)
    (by decide) (by decide) (by decide) (by decide)

/-- **C6** (confirmed).  In merge mode, a target-currency conversion row
with no pending entry sharing both its Date and Time emits a line keeping
the row's own Name and Type as payee and memo, with the pending set left
unchanged; and a pending-foreign row is never among the retained rows, so
it never itself produces an output line. -/
theorem unmatched_rows_behavior (cfg : Config) (other : List Row) (row : Row)
    (line : StatementLine) (p' : List Row) (ty nm d t : String)
    (hm : cfg.merge_payee = true)
    (hty : row.get? type_idx = some ty)
    (hconv : containsSubstr (lowerStr ty) "currency conversion" = true)
    (hnm : row.get? payee_idx = some nm)
    (hd : row.get? date_idx = some d)
    (ht : row.get? time_idx = some t)
    (hnone : ∀ r' ∈ other, ∃ d' t', r'.get? date_idx = some d' ∧
      r'.get? time_idx = some t' ∧ ¬(d' = d ∧ t' = t))
    (hok : parse_record cfg other row = Except.ok (line, p')) :
    line.payee = nm ∧ line.memo = ty ∧ p' = other ∧
    (∀ rs t2 o2 r2, rows cfg rs = Except.ok (t2, o2) → r2 ∈ o2 → r2 ∉ t2) := by
  have hgm := get_matching_no_match hd ht other hnone
  obtain ⟨ds, memo2, am2, payee2, _, hmemo2, _, hpayee2, _, _, _, _, _, hcc⟩ :=
    parse_record_ok_shape hok
  have hmeq : memo2 = ty := by
    have h2 := hmemo2.symm.trans hty
    injection h2
  have hpeq : payee2 = nm := by
    have h2 := hpayee2.symm.trans hnm
    injection h2
  subst hmeq hpeq
  have hdisj : ∀ rs t2 o2 r2, rows cfg rs = Except.ok (t2, o2) → r2 ∈ o2 → r2 ∉ t2 := by
    intro rs t2 o2 r2 hrows hro hrt
    have hmm := rowsMerge_ok_mem (rows_merge_ok hm hrows) r2
    obtain ⟨_, ⟨c, hc, hcne⟩, _⟩ := hmm.2.mp hro
    have h2 := (hmm.1.mp hrt).2
    rw [hc] at h2
    injection h2 with h3
    exact hcne h3
  rcases hcc hm hconv with ⟨hmnone, hlm, hlp⟩ | ⟨mr, mn2, mt2, hsome, _, _, _, _⟩
  · rw [hgm] at hmnone
    injection hmnone with h2
    injection h2 with h3 h4
    exact ⟨hlp, hlm, h4.symm, hdisj⟩
  · rw [hgm] at hsome
    injection hsome with h2
    injection h2 with h3 h4
    exact Option.noConfusion h3.symm

/-- Witness for `unmatched_rows_behavior`: a conversion row at a time no
pending entry shares keeps its own "PayPal"/"Currency Conversion". -/
theorem unmatched_rows_behavior_wit :
    (StatementLine.mk ⟨3, 2, 2020⟩ "Currency Conversion" (mkRat (-500) 100) "PayPal"
      (generate_transaction_id ⟨3, 2, 2020⟩ "Currency Conversion" (mkRat (-500) 100)
        "PayPal")).payee = "PayPal" ∧
    (StatementLine.mk ⟨3, 2, 2020⟩ "Currency Conversion" (mkRat (-500) 100) "PayPal"
      (generate_transaction_id ⟨3, 2, 2020⟩ "Currency Conversion" (mkRat (-500) 100)
        "PayPal")).memo = "Currency Conversion" ∧
    ([foreignRow] : List Row) = [foreignRow] ∧
    (∀ rs t2 o2 r2, rows mergeCfg rs = Except.ok (t2, o2) → r2 ∈ o2 → r2 ∉ t2) :=
  unmatched_rows_behavior mergeCfg [foreignRow] lonelyConversionRow
    (StatementLine.mk ⟨3, 2, 2020⟩ "Currency Conversion" (mkRat (-500) 100) "PayPal"
      (generate_transaction_id ⟨3, 2, 2020⟩ "Currency Conversion" (mkRat (-500) 100)
        "PayPal"))
    [foreignRow] "Currency Conversion" "PayPal" "03/02/2020" "11:00:00"
    (by decide) (by decide) (by decide) (by decide) (by decide) (by decide)
    (by
      intro r' hr'
      rcases List.mem_cons.mp hr' with rfl | h2
      · exact ⟨"01/02/2020", "10:00:00", by decide, by decide, by decide⟩
      · cases h2)
    (by decide)

/-- **C1** (corrected — counterexample).  In merge mode, a conversion row
whose payee/memo are overwritten from a matched pending row keeps the id
computed from its own pre-overwrite Name/Type, so a produced line's id
differs from the identifier function applied to its final fields, and two
produced lines with identical final date/memo/amount/payee carry
different ids. -/
theorem id_ignores_merge_overwrite_cx :
    process mergeCfg [headerRow, foreignRow, conversionRow, plainRow] =
      Except.ok [mergedConvLine, plainLine] ∧
    mergedConvLine.date = plainLine.date ∧
    mergedConvLine.memo = plainLine.memo ∧
    mergedConvLine.amount = plainLine.amount ∧
    mergedConvLine.payee = plainLine.payee ∧
    mergedConvLine.id ≠ plainLine.id ∧
    mergedConvLine.id ≠ generate_transaction_id mergedConvLine.date mergedConvLine.memo
      mergedConvLine.amount mergedConvLine.payee :=
  ⟨by decide, rfl, rfl, rfl, rfl, by decide, by decide⟩

/-- **C1** (amended).  Every produced line's id equals the deterministic
identifier function applied to the line's date and amount together with
the row's own Type and Name fields — the fields the line carried *before*
any merge-mode payee/memo overwrite; in default mode (where no overwrite
exists) the id therefore equals the identifier function applied to the
line's final fields. -/
theorem id_from_pre_merge_fields (cfg : Config) (other : List Row) (row : Row)
    (line : StatementLine) (p' : List Row) (memo payee : String)
    (hmemo : row.get? type_idx = some memo)
    (hpayee : row.get? payee_idx = some payee)
    (hok : parse_record cfg other row = Except.ok (line, p')) :
    line.id = generate_transaction_id line.date memo line.amount payee ∧
    (cfg.merge_payee = false →
      line.memo = memo ∧ line.payee = payee ∧
      line.id = generate_transaction_id line.date line.memo line.amount line.payee) := by
  obtain ⟨ds, memo2, am2, payee2, _, hmemo2, _, hpayee2, _, _, hid, hdef, _, _⟩ :=
    parse_record_ok_shape hok
  have hmeq : memo2 = memo := by
    have h2 := hmemo2.symm.trans hmemo
    injection h2
  have hpeq : payee2 = payee := by
    have h2 := hpayee2.symm.trans hpayee
    injection h2
  subst hmeq hpeq
  refine ⟨hid, fun hm => ?_⟩
  obtain ⟨hlm, hlp, _⟩ := hdef hm
  rw [hlm, hlp]
  exact ⟨rfl, rfl, hid⟩

/-- Witness for `id_from_pre_merge_fields` on a plain default-mode row. -/
theorem id_from_pre_merge_fields_wit :
    plainLine.id = generate_transaction_id plainLine.date "Payment" plainLine.amount
      "Jane Doe" ∧
    (defaultCfg.merge_payee = false →
      plainLine.memo = "Payment" ∧ plainLine.payee = "Jane Doe" ∧
      plainLine.id = generate_transaction_id plainLine.date plainLine.memo
        plainLine.amount plainLine.payee) :=
  id_from_pre_merge_fields defaultCfg [] plainRow plainLine [] "Payment" "Jane Doe"
    (by decide) (by decide) (by decide)

/-- **C7** (confirmed).  A retained row's Amount field is parsed by first
removing every space character and then reading the rest under the
configured locale's conventions; "1 234,56" under a comma-decimal,
space-thousands locale and "1234.56" under a dot-decimal locale both
parse to 1234.56. -/
theorem amount_locale_parsing (cfg : Config) (other : List Row) (row : Row)
    (line : StatementLine) (p' : List Row) (am : String)
    (hok : parse_record cfg other row = Except.ok (line, p'))
    (ham : row.get? amount_idx = some am) :
    localeAtof cfg.numLocale (removeSpaces am) = Except.ok line.amount ∧
    localeAtof commaLocale (removeSpaces "1 234,56") = Except.ok (mkRat 123456 100) ∧
    localeAtof dotLocale (removeSpaces "1234.56") = Except.ok (mkRat 123456 100) := by
  obtain ⟨ds, memo2, am2, payee2, _, _, ham2, _, _, hamount, _⟩ :=
    parse_record_ok_shape hok
  have haeq : am2 = am := by
    have h2 := ham2.symm.trans ham
    injection h2
  subst haeq
  exact ⟨hamount, by decide, by decide⟩

/-- Witness for `amount_locale_parsing` on the plain USD row. -/
theorem amount_locale_parsing_wit :
    localeAtof defaultCfg.numLocale (removeSpaces "-12.34") =
      Except.ok plainLine.amount ∧
    localeAtof commaLocale (removeSpaces "1 234,56") = Except.ok (mkRat 123456 100) ∧
    localeAtof dotLocale (removeSpaces "1234.56") = Except.ok (mkRat 123456 100) :=
  amount_locale_parsing defaultCfg [] plainRow plainLine [] "-12.34"
    (by decide) (by decide)

/-- **C8** (confirmed).  A numeric parse through `scoped_setlocale` leaves
the process-wide `LC_NUMERIC` state exactly as it found it on every exit
path — whether the locale is unsupported, the parse fails, or it
succeeds — and this holds for any body run under the scope, even one that
itself changes the locale state. -/
theorem locale_scope_restored (sys : LocaleSystem) (loc : Option String) (s : String)
    (st : String) :
    (atof sys loc s st).2 = st ∧
    (∀ (α : Type) (body : String → Except PError α × String),
      (scoped_setlocale sys loc body st).2 = st) := by
  constructor
  · cases loc with
    | none => rfl
    | some l =>
      show (if sys.supported l = true then
          ((localeAtof (sys.conv l) s, l).1, st) else
          (Except.error (PError.localeError l), st)).2 = st
      cases sys.supported l <;> rfl
  · intro α body
    cases loc with
    | none => rfl
    | some l =>
      show (if sys.supported l = true then
          ((body l).1, st) else
          (Except.error (PError.localeError l), st)).2 = st
      cases sys.supported l <;> rfl

/-- **C9** (confirmed).  `parse_bool` accepts exactly "True"/"true"/"1" as
true and exactly "False"/"false"/"0" as false, and fails with the
invalid-boolean-literal error on every other string. -/
theorem parse_bool_literals (s : String) :
    (parse_bool s = Except.ok true ↔ s = "True" ∨ s = "true" ∨ s = "1") ∧
    (parse_bool s = Except.ok false ↔ s = "False" ∨ s = "false" ∨ s = "0") ∧
    (¬(s = "True" ∨ s = "true" ∨ s = "1") → ¬(s = "False" ∨ s = "false" ∨ s = "0") →
      parse_bool s = Except.error (PError.invalidBooleanLiteral s)) := by
  unfold parse_bool
  by_cases h1 : s = "True" ∨ s = "true" ∨ s = "1"
  · rw [if_pos h1]
    refine ⟨⟨fun _ => h1, fun _ => rfl⟩, ⟨fun hh => ?_, fun h2 => ?_⟩,
      fun hn1 _ => absurd h1 hn1⟩
    · injection hh with h3
      exact Bool.noConfusion h3
    · exfalso
      rcases h1 with rfl | rfl | rfl <;> rcases h2 with h2 | h2 | h2 <;>
        exact absurd h2 (by decide)
  · rw [if_neg h1]
    by_cases h2 : s = "False" ∨ s = "false" ∨ s = "0"
    · rw [if_pos h2]
      refine ⟨⟨fun hh => ?_, fun hh => absurd hh h1⟩, ⟨fun _ => h2, fun _ => rfl⟩,
        fun _ hn2 => absurd h2 hn2⟩
      injection hh with h3
      exact Bool.noConfusion h3
    · rw [if_neg h2]
      exact ⟨⟨fun hh => Except.noConfusion hh, fun hh => absurd hh h1⟩,
        ⟨fun hh => Except.noConfusion hh, fun hh => absurd hh h2⟩,
        fun _ _ => rfl⟩

/-- Witness for `parse_bool_literals`: a non-literal string fails. -/
theorem parse_bool_literals_wit :
    parse_bool "maybe" = Except.error (PError.invalidBooleanLiteral "maybe") :=
  (parse_bool_literals "maybe").2.2 (by decide) (by decide)

/-- **C10** (corrected — counterexample).  A 7-field row reaching the
currency filter does not always raise an index error: when its Currency
field (index 6, present) differs from the target, default mode silently
drops it and parsing succeeds. -/
theorem short_row_dropped_cx :
    shortForeignRow.length = 7 ∧
    process defaultCfg [headerRow, shortForeignRow] = Except.ok [] :=
  ⟨rfl, by decide⟩

/-- **C10** (amended).  Row handling indexes fields with no bounds checks:
a post-header row with fewer than 7 fields (e.g. an empty row) makes the
currency filter raise `IndexError`; a retained row needs at least 8
fields, so a 7-field retained row never produces a line — with a parseable
date it fails at the Amount access with `IndexError`, as on the concrete
7-field USD row and on the empty row; but a 7-field row that fails the
currency filter is dropped, not an error. -/
theorem short_row_index_errors (cfg : Config) (rs : List Row) (row : Row)
    (other : List Row) :
    ((∃ r ∈ rs, r.length < 7) → rows cfg rs = Except.error PError.indexError) ∧
    (row.length < 8 → ∀ line p', parse_record cfg other row ≠ Except.ok (line, p')) ∧
    parse_record defaultCfg [] shortTargetRow = Except.error PError.indexError ∧
    process defaultCfg [headerRow, []] = Except.error PError.indexError := by
  refine ⟨?_, ?_, by decide, by decide⟩
  · rintro ⟨r, hr, hlen⟩
    cases hres : rows cfg rs with
    | ok p =>
      exfalso
      obtain ⟨t, o⟩ := p
      have h7 : currency_idx < r.length := by
        unfold rows at hres
        split at hres
        · cases hd2 : rowsDefault cfg rs with
          | ok t2 => exact rowsDefault_ok_len hd2 r hr
          | error e2 => rw [hd2] at hres; exact Except.noConfusion hres
        · exact rowsMerge_ok_len hres r hr
      have : currency_idx = 6 := by decide
      omega
    | error e =>
      rw [rows_err hres]
  · intro hlen line p' hok
    have h8 := parse_record_ok_len hok
    have : amount_idx = 7 := by decide
    omega

/-- Witness for `short_row_index_errors`: the empty row aborts both row
filtering and the whole run with `IndexError`. -/
theorem short_row_index_errors_wit :
    rows defaultCfg [[]] = Except.error PError.indexError ∧
    (∀ line p', parse_record defaultCfg [] shortTargetRow ≠ Except.ok (line, p')) ∧
    parse_record defaultCfg [] shortTargetRow = Except.error PError.indexError ∧
    process defaultCfg [headerRow, []] = Except.error PError.indexError := by
  have h := short_row_index_errors defaultCfg [[]] shortTargetRow []
  exact ⟨h.1 ⟨[], by decide, by decide⟩, h.2.1 (by decide), h.2.2.1, h.2.2.2⟩

end PayPal
